import Mathlib

set_option maxHeartbeats 1000000

/- Shallow embedding of bin/testcode.py: the data model (Test, TestProgram and the
status triple), the scheduler (run_tests together with a step relation for its
worker threads), the comparison and diff drivers, the status aggregation and the
benchmark promotion workflow.  Collaborators that live in the testcode2 library
(configuration parsing, test execution, file comparison, version control, the
interactive input primitive) are modelled as parameters or, where their behaviour
matters, modelled from the spec and marked as such in their doc comments. -/

/-- A test program, as in the spec's data model: executable path, the current test
output label and the current benchmark label.  The version-control handle is
modelled from the spec: `some id` when a version-control collaborator can produce
a code identifier, `none` when the identifier must be entered manually. -/
structure TCProgram where
  exe : String
  test_id : String
  benchmark : String
  code_id : Option String
deriving DecidableEq

/-- A test: path, processor requirement `nprocs` with its bounds and override
flag, the ordered list of (input, arguments) sub-runs, the owning program and the
mutable status triple (passed, warned, ran). -/
structure TCTest where
  path : String
  nprocs : Int
  min_nprocs : Int
  max_nprocs : Int
  override_nprocs : Bool
  inputs_args : List (String × String)
  test_program : TCProgram
  passed : Nat
  warned : Nat
  ran : Nat
deriving DecidableEq

abbrev TCStatus := Nat × Nat × Nat

/-- Modelled from the spec: `Test.get_status` (testcode2 library, not under src/)
returns the test's status triple (passed, warned, ran). -/
def get_status (t : TCTest) : TCStatus := (t.passed, t.warned, t.ran)

/-- Store a status triple back into a test (the Verification Driver mutates the
status fields in place; all other fields are untouched). -/
def setStatus (t : TCTest) (st : TCStatus) : TCTest :=
  { t with passed := st.1, warned := st.2.1, ran := st.2.2 }

/-- `npassed = sum(status[0] for status in statuses)` where
`statuses = [test.get_status() for test in tests]` (end_status lines 498-499,
make_benchmarks lines 421-422). -/
def npassedOf (tests : List TCTest) : Nat :=
  ((tests.map get_status).map (fun s => s.1)).sum

/-- `nwarning = sum(status[1] for status in statuses)` (line 500 / line 423). -/
def nwarningOf (tests : List TCTest) : Nat :=
  ((tests.map get_status).map (fun s => s.2.1)).sum

/-- `nran = sum(status[2] for status in statuses)` (line 501 / line 424). -/
def nranOf (tests : List TCTest) : Nat :=
  ((tests.map get_status).map (fun s => s.2.2)).sum

/-- The return value of end_status (lines 498-538): the printed report is I/O
glue; the function computes the three sums, folds the warnings into the pass
count (`npassed += nwarning`, line 503) and returns 1 when `nran != npassed`
(lines 534-538), 0 otherwise.  `skipped` and `verbose` only affect the printed
text, never the return value. -/
def end_status (tests : List TCTest) (_skipped : Nat) (_verbose : Bool) : Nat :=
  let npassed := npassedOf tests + nwarningOf tests
  if nranOf tests ≠ npassed then 1 else 0

/-- The nprocs-setting block of init_tests (lines 93-101).  Configuration-file
parsing before it and category selection after it are external collaborators;
this is the loop body applied to one test: assign the global value unless the
test's override flag is set, then clamp below by min_nprocs and above by
max_nprocs (both clamps run for every test). -/
def apply_global_nprocs (nprocs : Int) (test : TCTest) : TCTest :=
  let t1 := if test.override_nprocs = false then { test with nprocs := nprocs } else test
  let t2 := if t1.nprocs < t1.min_nprocs then { t1 with nprocs := t1.min_nprocs } else t1
  if t2.max_nprocs < t2.nprocs then { t2 with nprocs := t2.max_nprocs } else t2

/-- init_tests, restricted to its nprocs-setting effect (lines 93-101): when the
command-line nprocs is non-negative the loop body runs on every test, otherwise
the tests are left untouched. -/
def init_tests_set_nprocs (nprocs : Int) (tests : List TCTest) : List TCTest :=
  if 0 ≤ nprocs then tests.map (apply_global_nprocs nprocs) else tests

/-- Errors run_tests can raise: the fatal configuration error of lines 295-299,
and Python's ValueError from `max()` on an empty sequence (line 294). -/
inductive RunError
  | testCodeError (needed available : Int)
  | valueError
deriving DecidableEq

/-- What run_tests goes on to do once validation has passed: either run the
tests sequentially one at a time (lines 311-314), or create a bounded semaphore
of the given capacity and one worker thread per test (lines 300-310). -/
inductive RunPlan
  | sequential (tests : List TCTest)
  | concurrent (cap : Nat) (tests : List TCTest)
deriving DecidableEq

/-- `sum(test.nprocs for test in tests)` (line 290). -/
def sumNprocs (tests : List TCTest) : Int :=
  (tests.map (fun t => t.nprocs)).sum

/-- `max(test.nprocs for test in tests)` (line 294): `none` models the ValueError
Python raises on an empty sequence. -/
def maxNprocs : List TCTest → Option Int
  | [] => none
  | t :: ts => some (ts.foldl (fun m u => max m u.nprocs) t.nprocs)

/-- run_tests (lines 246-314), up to the point where work starts: if
`tot_nprocs <= 0` and a cluster queue is given, the budget becomes the sum of
every test's nprocs (lines 288-290); if the resulting budget is positive, the
largest test must fit in it or a TestCodeError is raised before any semaphore,
thread or test run is created (lines 292-299); otherwise the returned plan says
what is executed (concurrent with a semaphore of that capacity, or sequential). -/
def run_tests (tests : List TCTest) (cluster_queue : Option String)
    (tot_nprocs : Int) : Except RunError RunPlan :=
  let tot := if tot_nprocs ≤ 0 ∧ cluster_queue.isSome then sumNprocs tests else tot_nprocs
  if 0 < tot then
    match maxNprocs tests with
    | none => Except.error RunError.valueError
    | some m =>
      if tot < m then Except.error (RunError.testCodeError m tot)
      else Except.ok (RunPlan.concurrent tot.toNat tests)
  else Except.ok (RunPlan.sequential tests)

/-- The tests that a run_tests outcome executes: none when it raised. -/
def planTests : Except RunError RunPlan → List TCTest
  | Except.ok (RunPlan.sequential ts) => ts
  | Except.ok (RunPlan.concurrent _ ts) => ts
  | Except.error _ => []

/-- The semaphore capacity a run_tests outcome creates: `none` when no semaphore
is created (sequential mode or an error raised before line 300). -/
def semCapacity : Except RunError RunPlan → Option Nat
  | Except.ok (RunPlan.concurrent c _) => some c
  | _ => none

/-- Whether a run_tests outcome is the fatal configuration TestCodeError. -/
def isTestCodeError : Except RunError RunPlan → Bool
  | Except.error (RunError.testCodeError _ _) => true
  | _ => false

instance : DecidableEq (Except RunError RunPlan) := fun a b =>
  match a, b with
  | Except.ok x, Except.ok y =>
    decidable_of_iff (x = y) (by simp)
  | Except.error x, Except.error y =>
    decidable_of_iff (x = y) (by simp)
  | Except.ok _, Except.error _ => Decidable.isFalse (by simp)
  | Except.error _, Except.ok _ => Decidable.isFalse (by simp)

/-- `nprocs_used = max(1, test.nprocs)` (run_test_worker, line 278): the number
of semaphore units one worker acquires and later releases. -/
def nprocsUsed (nprocs : Int) : Nat := (max 1 nprocs).toNat

/-- Phase of one worker thread of run_tests' concurrent mode (run_test_worker,
lines 260-286): `pending` before `semaphore_lock.acquire()`; `acquiring k` while
holding the lock with `k` semaphore units already acquired; `running` inside
`test.run_test` holding all units (the lock was released at line 281);
`releasing k` after run_test returned with `k` units still to release;
`done` after the release loop. -/
inductive WPhase
  | pending
  | acquiring (k : Nat)
  | running
  | releasing (k : Nat)
  | done
deriving DecidableEq

def WPhase.isAcquiring : WPhase → Bool
  | WPhase.acquiring _ => true
  | _ => false

/-- One worker of the concurrent scheduler: its unit requirement
`max(1, test.nprocs)` paired with its current phase. -/
abbrev Worker := Nat × WPhase

/-- Semaphore units currently held by one worker. -/
def held : Worker → Nat
  | (_, WPhase.pending) => 0
  | (_, WPhase.acquiring k) => k
  | (n, WPhase.running) => n
  | (_, WPhase.releasing k) => k
  | (_, WPhase.done) => 0

/-- Total units currently taken from the semaphore. -/
def totalHeld (s : List Worker) : Nat := (s.map held).sum

/-- Unit requirements of all workers. -/
def sumNeeds (s : List Worker) : Nat := (s.map Prod.fst).sum

/-- Units held by a worker that is currently executing its test (inside
`test.run_test`): its full requirement if running, nothing otherwise. -/
def runningUnits : Worker → Nat
  | (n, WPhase.running) => n
  | _ => 0

/-- The instantaneous sum of `max(1, test.nprocs)` over currently-executing
tests. -/
def sumRunning (s : List Worker) : Nat := (s.map runningUnits).sum

/-- Initial state of the worker pool run_tests spawns: one pending worker per
test, requiring `max(1, test.nprocs)` units (lines 278, 302-308). -/
def initState (tests : List TCTest) : List Worker :=
  tests.map (fun t => (nprocsUsed t.nprocs, WPhase.pending))

/-- Interleaving semantics of run_test_worker (lines 260-286) against a bounded
semaphore of capacity `cap` and the shared semaphore_lock: `takeLock` is
`semaphore_lock.acquire()` (only possible while no other worker holds the lock,
i.e. is in an acquiring phase); `acquireUnit` is one iteration of the acquire
loop (only possible while the semaphore counter `cap - totalHeld` is positive);
`finishAcquire` is `semaphore_lock.release()` followed by entering
`test.run_test`; `finishRun` is run_test returning (success or recorded
failure); `releaseUnit` is one iteration of the release loop; `finishRelease`
ends the worker. -/
inductive SchedStep (cap : Nat) : List Worker → List Worker → Prop
  | takeLock (s : List Worker) (i n : Nat)
      (h : s[i]? = some (n, WPhase.pending))
      (hl : ∀ w ∈ s, w.2.isAcquiring = false) :
      SchedStep cap s (s.set i (n, WPhase.acquiring 0))
  | acquireUnit (s : List Worker) (i n k : Nat)
      (h : s[i]? = some (n, WPhase.acquiring k))
      (hk : k < n) (hc : totalHeld s < cap) :
      SchedStep cap s (s.set i (n, WPhase.acquiring (k + 1)))
  | finishAcquire (s : List Worker) (i n : Nat)
      (h : s[i]? = some (n, WPhase.acquiring n)) :
      SchedStep cap s (s.set i (n, WPhase.running))
  | finishRun (s : List Worker) (i n : Nat)
      (h : s[i]? = some (n, WPhase.running)) :
      SchedStep cap s (s.set i (n, WPhase.releasing n))
  | releaseUnit (s : List Worker) (i n k : Nat)
      (h : s[i]? = some (n, WPhase.releasing (k + 1))) :
      SchedStep cap s (s.set i (n, WPhase.releasing k))
  | finishRelease (s : List Worker) (i n : Nat)
      (h : s[i]? = some (n, WPhase.releasing 0)) :
      SchedStep cap s (s.set i (n, WPhase.done))

/-- A state of the worker pool reachable by some interleaving. -/
def SchedReach (cap : Nat) (s0 s : List Worker) : Prop :=
  Relation.ReflTransGen (SchedStep cap) s0 s

/-- Modelled from the spec: the outcome `test.run_test` (testcode2 library, not
under src/) reports back.  Per the spec the call is synchronous and
run-to-completion: failure or abnormal termination of the external program is
recorded on the test's status and reported back, not raised. -/
inductive RunOutcome
  | success
  | failure
  | abnormal
deriving DecidableEq

/-- The events of one worker's straight-line body (run_test_worker,
lines 276-286), in program order. -/
inductive WEvent
  | lockAcquire
  | semAcquire
  | lockRelease
  | runTest (outcome : RunOutcome)
  | semRelease
deriving DecidableEq

def WEvent.isSemAcquire : WEvent → Bool
  | WEvent.semAcquire => true
  | _ => false

def WEvent.isSemRelease : WEvent → Bool
  | WEvent.semRelease => true
  | _ => false

/-- The event trace of run_test_worker (lines 276-286) on one test:
`semaphore_lock.acquire()`; `nprocs_used = max(1, test.nprocs)` acquisitions;
`semaphore_lock.release()`; the `test.run_test` call with whatever outcome the
external execution had; then `nprocs_used` releases. -/
def run_test_worker (test : TCTest) (outcome : RunOutcome) : List WEvent :=
  WEvent.lockAcquire ::
    (List.replicate (nprocsUsed test.nprocs) WEvent.semAcquire
      ++ [WEvent.lockRelease, WEvent.runTest outcome]
      ++ List.replicate (nprocsUsed test.nprocs) WEvent.semRelease)

/-- The test-output filename compare_tests checks (lines 328-332):
`os.path.join(test.path, testcode_filename(FILESTEM['test'],
test.test_program.test_id, inp, args))`.  `testcode_filename` is in
testcode2.util (not under src/) and is passed in as `tcfname`. -/
def testFileOf (tcfname : String → String → String → String) (t : TCTest)
    (inp args : String) : String :=
  t.path ++ "/" ++ tcfname t.test_program.test_id inp args

/-- The inner loop of compare_tests (lines 327-339) over one test's sub-runs:
if the test file exists, `test.verify_job(inp, args, verbose)` updates the
status triple; otherwise the sub-run is skipped (a message printed only in
verbose mode) and the skip counter incremented.  Returns the final status
triple, the skip count, and the sub-runs for which verify_job was invoked.
`verify` stands for the external verify_job, which (modelled from the spec)
updates only the status triple. -/
def compare_sub (fs : String → Bool)
    (verify : String → String → Bool → TCStatus → TCStatus) (verbose : Bool)
    (file : String → String → String) :
    List (String × String) → TCStatus → TCStatus × Nat × List (String × String)
  | [], st => (st, 0, [])
  | (inp, args) :: rest, st =>
    if fs (file inp args) then
      let r := compare_sub fs verify verbose file rest (verify inp args verbose st)
      (r.1, r.2.1, (inp, args) :: r.2.2)
    else
      let r := compare_sub fs verify verbose file rest st
      (r.1, r.2.1 + 1, r.2.2)

/-- Result of compare_tests: the tests with their updated statuses, the returned
`nskipped` (line 341), and every (input, arguments) sub-run on which verify_job
was invoked, in order. -/
structure CompareOut where
  tests : List TCTest
  nskipped : Nat
  verified : List (String × String)
deriving DecidableEq

/-- compare_tests (lines 317-341): iterate over the tests and their sub-runs,
verifying the sub-runs whose test output file exists and counting the rest as
skipped.  `tcfname` is testcode2.util.testcode_filename applied to
FILESTEM['test'], `fs` is os.path.exists, `verify` is Test.verify_job. -/
def compare_tests (tcfname : String → String → String → String)
    (fs : String → Bool)
    (verify : String → String → Bool → TCStatus → TCStatus)
    (tests : List TCTest) (verbose : Bool) : CompareOut :=
  match tests with
  | [] => { tests := [], nskipped := 0, verified := [] }
  | t :: rest =>
    let r := compare_sub fs verify verbose (testFileOf tcfname t)
               t.inputs_args (get_status t)
    let rr := compare_tests tcfname fs verify rest verbose
    { tests := setStatus t r.1 :: rr.tests,
      nskipped := r.2.1 + rr.nskipped,
      verified := r.2.2 ++ rr.verified }

/-- What diff_tests prints: the per-sub-run `Diffing ... and ... in ...` header
and the `Skipping diff: ... does not exist.` message (the text formatting is
I/O glue; the events carry the same data). -/
inductive DiffEvent
  | diffing (benchmark test_file path : String)
  | skipping (test_file : String)
deriving DecidableEq

def DiffEvent.isSkip : DiffEvent → Bool
  | DiffEvent.skipping _ => true
  | _ => false

/-- The inner loop of diff_tests (lines 354-372) over one test's sub-runs, run
after `os.chdir(test.path)`: compute the benchmark and test filenames, print the
Diffing header in verbose mode, and either skip (printing only in verbose mode)
when either file is missing, or invoke the external diff program on the pair.
Returns the diff commands executed and the events printed.  `bfn`/`tfn` are
testcode2.util.testcode_filename applied to FILESTEM['benchmark'] and
FILESTEM['test']; `fs dir name` is os.path.exists(name) with cwd = dir. -/
def diff_one (bfn tfn : String → String → String → String)
    (fs : String → String → Bool) (diff_program : String) (verbose : Bool)
    (t : TCTest) : List (String × String) → List String × List DiffEvent
  | [] => ([], [])
  | (inp, args) :: rest =>
    let benchmark := bfn t.test_program.benchmark inp args
    let test_file := tfn t.test_program.test_id inp args
    let pr1 := if verbose then [DiffEvent.diffing benchmark test_file t.path] else []
    let r := diff_one bfn tfn fs diff_program verbose t rest
    if !fs t.path test_file || !fs t.path benchmark then
      let pr2 := if verbose then [DiffEvent.skipping test_file] else []
      (r.1, pr1 ++ pr2 ++ r.2)
    else
      ((diff_program ++ " " ++ benchmark ++ " " ++ test_file) :: r.1, pr1 ++ r.2)

/-- Result of diff_tests: the tests (diff_tests is a read-only query: the loop
at lines 351-373 only reads the test objects), the diff commands executed, and
the events printed. -/
structure DiffOut where
  tests : List TCTest
  diffed : List String
  printed : List DiffEvent
deriving DecidableEq

/-- diff_tests (lines 343-373). -/
def diff_tests (bfn tfn : String → String → String → String)
    (fs : String → String → Bool) (diff_program : String)
    (tests : List TCTest) (verbose : Bool) : DiffOut :=
  { tests := tests,
    diffed := (tests.map
      (fun t => (diff_one bfn tfn fs diff_program verbose t t.inputs_args).1)).flatten,
    printed := (tests.map
      (fun t => (diff_one bfn tfn fs diff_program verbose t t.inputs_args).2)).flatten }

/-- The confirmation loop of make_benchmarks (lines 426-430) and tidy_tests:
`while ans != 'y' and ans != 'n': ans = compat_input(...)`.  Modelled from the
spec: compat_input (testcode2.compatibility, not under src/) yields the next
line of operator input; the interactive stream is a list, and `none` models the
EOFError raised when it is exhausted.  Returns the first 'y'/'n' answer and the
rest of the stream. -/
def askConfirm : List String → Option (String × List String)
  | [] => none
  | a :: rest => if a = "y" ∨ a = "n" then some (a, rest) else askConfirm rest

/-- The vcs-info loop of make_benchmarks (lines 435-442): for each program in
order, take the version-control identifier if the program has a vcs handle,
otherwise consume one line of operator input as the manual identifier.  Returns
the association list `vcs` and the remaining input, or `none` for EOFError. -/
def collectVcs : List (String × TCProgram) → List String →
    Option (List (String × String) × List String)
  | [], stream => some ([], stream)
  | (key, program) :: rest, stream =>
    match program.code_id with
    | some cid =>
      match collectVcs rest stream with
      | none => none
      | some (v, s) => some ((key, cid) :: v, s)
    | none =>
      match stream with
      | [] => none
      | ans :: tail =>
        match collectVcs rest tail with
        | none => none
        | some (v, s) => some ((key, ans) :: v, s)

/-- The benchmark label of make_benchmarks (lines 445-451): the identifier
itself when exactly one program is involved, otherwise the dot-joined
`key-identifier` entries in order. -/
def mkLabel : List (String × String) → String
  | [(_, cid)] => cid
  | vcs => String.intercalate "." (vcs.map (fun p => p.1 ++ "-" ++ p.2))

/-- Observable outcome of make_benchmarks: whether the confirmation prompt was
shown, the create_new_benchmarks calls made (test and label), whether the
userconfig file was read and rewritten (lines 458-466), whether the run died on
exhausted operator input (EOFError), and whether it aborted at the declined
confirmation (`return None`, line 432). -/
structure MBOut where
  confirmPrompted : Bool
  created : List (TCTest × String)
  userconfigRead : Bool
  userconfigWritten : Bool
  crashed : Bool
  aborted : Bool
deriving DecidableEq

/-- The part of make_benchmarks after the confirmation gate (lines 434-466):
collect vcs identifiers, derive the label, call
`test.create_new_benchmarks(benchmark, ...)` on every test (modelled from the
spec: create_new_benchmarks is in the testcode2 library and copies output files;
it touches neither the statuses nor the userconfig), and rewrite the userconfig
when a path was given (`if userconfig:`). -/
def make_benchmarks_rest (test_programs : List (String × TCProgram))
    (tests : List TCTest) (userconfig : String) (stream : List String)
    (prompted : Bool) : MBOut :=
  match collectVcs test_programs stream with
  | none =>
    { confirmPrompted := prompted, created := [], userconfigRead := false,
      userconfigWritten := false, crashed := true, aborted := false }
  | some (vcs, _) =>
    let benchmark := mkLabel vcs
    { confirmPrompted := prompted,
      created := tests.map (fun t => (t, benchmark)),
      userconfigRead := userconfig ≠ "",
      userconfigWritten := userconfig ≠ "",
      crashed := false, aborted := false }

/-- make_benchmarks (lines 410-466): compute the status sums; when not all ran
sub-runs passed, ask for confirmation and return with no further effect unless
the answer is 'y'; then collect vcs identifiers, create the new benchmarks and
update the userconfig file. -/
def make_benchmarks (test_programs : List (String × TCProgram))
    (tests : List TCTest) (userconfig : String) (stream : List String) : MBOut :=
  if npassedOf tests ≠ nranOf tests then
    match askConfirm stream with
    | none =>
      { confirmPrompted := true, created := [], userconfigRead := false,
        userconfigWritten := false, crashed := true, aborted := false }
    | some (ans, rest) =>
      if ans ≠ "y" then
        { confirmPrompted := true, created := [], userconfigRead := false,
          userconfigWritten := false, crashed := false, aborted := true }
      else
        make_benchmarks_rest test_programs tests userconfig rest true
  else
    make_benchmarks_rest test_programs tests userconfig stream false

/-- A sample program for concrete witnesses. -/
def sampleProgram : TCProgram :=
  { exe := "bin/prog", test_id := "t1", benchmark := "bench1",
    code_id := some "abc123" }

/-- A sample one-processor test with a clean status. -/
def sampleTest1 : TCTest :=
  { path := "tests/a", nprocs := 1, min_nprocs := 0, max_nprocs := 64,
    override_nprocs := false, inputs_args := [("in1", "")],
    test_program := sampleProgram, passed := 0, warned := 0, ran := 0 }

/-- A sample serial test (`nprocs = 0`, run in serial as in the comment at
line 277). -/
def sampleTest0 : TCTest :=
  { sampleTest1 with path := "tests/z", nprocs := 0 }

/-- A sample two-processor test. -/
def sampleTest2 : TCTest :=
  { sampleTest1 with path := "tests/b", nprocs := 2 }

/-- A sample test with one failed sub-run recorded (ran = 1, passed = 0). -/
def sampleFailedTest : TCTest :=
  { sampleTest1 with
    path := "tests/f", ran := 1 }

/-- A sample test whose own nprocs is above its max_nprocs bound and whose
override flag is set. -/
def sampleOverrideTest : TCTest :=
  { sampleTest1 with
    path := "tests/o", nprocs := 5, min_nprocs := 1,
    max_nprocs := 2, override_nprocs := true }

/- General helper lemmas about list sums and folded maxima, shared by several
claims. -/

theorem sumMap_set {α : Type} (f : α → Nat) :
    ∀ (s : List α) (i : Nat) (w w' : α), s[i]? = some w →
      ((s.set i w').map f).sum + f w = (s.map f).sum + f w'
  | [], i, w, w', h => by simp at h
  | a :: t, 0, w, w', h => by
    simp only [List.getElem?_cons_zero, Option.some.injEq] at h
    subst h
    simp only [List.set, List.map_cons, List.sum_cons]
    omega
  | a :: t, i + 1, w, w', h => by
    simp only [List.getElem?_cons_succ] at h
    have ih := sumMap_set f t i w w' h
    simp only [List.set, List.map_cons, List.sum_cons]
    omega

theorem foldlMax_le_left :
    ∀ (l : List TCTest) (a : Int), a ≤ l.foldl (fun m u => max m u.nprocs) a
  | [], a => le_refl a
  | t :: ts, a =>
    le_trans (le_max_left a t.nprocs) (foldlMax_le_left ts (max a t.nprocs))

theorem foldlMax_le_of_mem :
    ∀ (l : List TCTest) (a : Int) (t : TCTest), t ∈ l →
      t.nprocs ≤ l.foldl (fun m u => max m u.nprocs) a
  | t' :: ts, a, t, h => by
    rcases List.mem_cons.mp h with h1 | h2
    · subst h1
      exact le_trans (le_max_right a t.nprocs) (foldlMax_le_left ts _)
    · exact foldlMax_le_of_mem ts _ t h2

theorem foldlMax_cases :
    ∀ (l : List TCTest) (a : Int),
      l.foldl (fun m u => max m u.nprocs) a = a
      ∨ ∃ t ∈ l, l.foldl (fun m u => max m u.nprocs) a = t.nprocs
  | [], a => Or.inl rfl
  | t' :: ts, a => by
    rcases foldlMax_cases ts (max a t'.nprocs) with h | ⟨t, ht, he⟩
    · rcases max_choice a t'.nprocs with hm | hm
      · left
        simpa [hm] using h
      · right
        exact ⟨t', List.mem_cons_self t' ts, by simpa [hm] using h⟩
    · right
      exact ⟨t, List.mem_cons_of_mem t' ht, he⟩

theorem maxNprocs_spec (tests : List TCTest) (t : TCTest) (ht : t ∈ tests) :
    ∃ m, maxNprocs tests = some m ∧ t.nprocs ≤ m := by
  cases tests with
  | nil => cases ht
  | cons t0 ts =>
    refine ⟨_, rfl, ?_⟩
    rcases List.mem_cons.mp ht with h | h
    · subst h
      exact foldlMax_le_left ts t.nprocs
    · exact foldlMax_le_of_mem ts t0.nprocs t h

theorem maxNprocs_is_mem (tests : List TCTest) (m : Int)
    (h : maxNprocs tests = some m) : ∃ t ∈ tests, m = t.nprocs := by
  cases tests with
  | nil => simp [maxNprocs] at h
  | cons t0 ts =>
    simp only [maxNprocs, Option.some.injEq] at h
    rcases foldlMax_cases ts t0.nprocs with hc | ⟨t, ht, he⟩
    · exact ⟨t0, List.mem_cons_self t0 ts, by omega⟩
    · exact ⟨t, List.mem_cons_of_mem t0 ht, by omega⟩

theorem sumNprocs_nonneg :
    ∀ (tests : List TCTest), (∀ t ∈ tests, 0 ≤ t.nprocs) → 0 ≤ sumNprocs tests
  | [], _ => le_refl 0
  | t :: ts, h => by
    have h0 : 0 ≤ t.nprocs := h t (List.mem_cons_self t ts)
    have hr : 0 ≤ sumNprocs ts :=
      sumNprocs_nonneg ts (fun u hu => h u (List.mem_cons_of_mem t hu))
    simp only [sumNprocs, List.map_cons, List.sum_cons] at *
    omega

theorem nprocs_le_sum :
    ∀ (tests : List TCTest), (∀ t ∈ tests, 0 ≤ t.nprocs) →
      ∀ t ∈ tests, t.nprocs ≤ sumNprocs tests
  | t0 :: ts, h, t, ht => by
    have h0 : 0 ≤ t0.nprocs := h t0 (List.mem_cons_self t0 ts)
    have hr : 0 ≤ sumNprocs ts :=
      sumNprocs_nonneg ts (fun u hu => h u (List.mem_cons_of_mem t0 hu))
    rcases List.mem_cons.mp ht with h1 | h2
    · subst h1
      simp only [sumNprocs, List.map_cons, List.sum_cons] at *
      omega
    · have := nprocs_le_sum ts (fun u hu => h u (List.mem_cons_of_mem t0 hu)) t h2
      simp only [sumNprocs, List.map_cons, List.sum_cons] at *
      omega

/-- C4: for every list of tests, end_status returns exit code 0 iff
npassed + nwarning = nran, where npassed, nwarning and nran are the sums of the
three components of the tests' status triples; and the result is invariant
under permutation of the test list (and under the skipped count and the
verbosity flag, which only affect printing). -/
theorem end_status_exit_code (tests tests' : List TCTest) (sk sk' : Nat)
    (v v' : Bool) (hperm : tests.Perm tests') :
    (end_status tests sk v = 0 ↔
      npassedOf tests + nwarningOf tests = nranOf tests)
    ∧ end_status tests sk v = end_status tests' sk' v' := by
  have hp : npassedOf tests = npassedOf tests' := ((hperm.map _).map _).sum_eq
  have hw : nwarningOf tests = nwarningOf tests' := ((hperm.map _).map _).sum_eq
  have hr : nranOf tests = nranOf tests' := ((hperm.map _).map _).sum_eq
  constructor
  · rcases eq_or_ne (nranOf tests) (npassedOf tests + nwarningOf tests) with h | h
    · simp [end_status, h]
    · simp [end_status, h, Ne.symm h]
  · simp only [end_status, hp, hw, hr]

/-- C4 witness: the exit-code law and permutation invariance at a concrete pair
of test lists. -/
theorem end_status_exit_code_witness :
    (end_status [sampleTest1, sampleTest2] 0 true = 0 ↔
      npassedOf [sampleTest1, sampleTest2] + nwarningOf [sampleTest1, sampleTest2]
        = nranOf [sampleTest1, sampleTest2])
    ∧ end_status [sampleTest1, sampleTest2] 0 true
        = end_status [sampleTest2, sampleTest1] 3 false :=
  end_status_exit_code [sampleTest1, sampleTest2] [sampleTest2, sampleTest1] 0 3
    true false (List.Perm.swap sampleTest2 sampleTest1 [])

/-- C7 counterexample: a test with override_nprocs set whose own nprocs = 5 lies
above its max_nprocs = 2.  With the non-negative global value 3 supplied,
init_tests changes its nprocs to 2: the clamping at lines 98-101 runs for every
test, override flag or not, so the claim that the test's nprocs is left
unchanged is false. -/
theorem init_tests_override_counterexample :
    sampleOverrideTest.override_nprocs = true
    ∧ sampleOverrideTest.nprocs = 5
    ∧ (0 : Int) ≤ 3
    ∧ (init_tests_set_nprocs 3 [sampleOverrideTest]).map (fun u => u.nprocs)
        = [2] := by
  refine ⟨by decide, by decide, by decide, by decide⟩

/-- C7 (amended): for every test whose override_nprocs flag is set and whose own
nprocs already lies within [min_nprocs, max_nprocs], init_tests leaves the test
unchanged when a non-negative global nprocs option is supplied: the global value
is never assigned to an override test, and the clamps do not fire for an
in-bounds value. -/
theorem init_tests_override_nprocs (g : Int) (tests : List TCTest) (i : Nat)
    (t : TCTest) (hg : 0 ≤ g) (hi : tests[i]? = some t)
    (hov : t.override_nprocs = true) (hmin : t.min_nprocs ≤ t.nprocs)
    (hmax : t.nprocs ≤ t.max_nprocs) :
    (init_tests_set_nprocs g tests)[i]? = some t := by
  have hmin' : ¬ t.nprocs < t.min_nprocs := not_lt.mpr hmin
  have hmax' : ¬ t.max_nprocs < t.nprocs := not_lt.mpr hmax
  have happ : apply_global_nprocs g t = t := by
    simp [apply_global_nprocs, hov, hmin', hmax']
  simp [init_tests_set_nprocs, if_pos hg, List.getElem?_map, hi, happ]

/-- C7 witness: the amended statement at a concrete in-bounds override test. -/
theorem init_tests_override_nprocs_witness :
    (init_tests_set_nprocs 4
      [{ sampleTest1 with override_nprocs := true }])[0]?
      = some { sampleTest1 with override_nprocs := true } :=
  init_tests_override_nprocs 4 [{ sampleTest1 with override_nprocs := true }] 0
    { sampleTest1 with override_nprocs := true }
    (by decide) rfl rfl (by decide) (by decide)

/-- C2: when tot_nprocs > 0 and some test's nprocs exceeds it, run_tests raises
the fatal configuration TestCodeError before any work: the outcome carries no
executed tests and no semaphore is created. -/
theorem run_tests_fatal_config_error (tests : List TCTest) (cq : Option String)
    (tot : Int) (t : TCTest) (htot : 0 < tot) (ht : t ∈ tests)
    (hgt : tot < t.nprocs) :
    isTestCodeError (run_tests tests cq tot) = true
    ∧ planTests (run_tests tests cq tot) = []
    ∧ semCapacity (run_tests tests cq tot) = none := by
  obtain ⟨m, hm, hle⟩ := maxNprocs_spec tests t ht
  have heff : (if tot ≤ 0 ∧ cq.isSome then sumNprocs tests else tot) = tot :=
    if_neg (fun hc => absurd hc.1 (not_le.mpr htot))
  have herr : run_tests tests cq tot
      = Except.error (RunError.testCodeError m tot) := by
    simp only [run_tests, heff, if_pos htot, hm]
    rw [if_pos (lt_of_lt_of_le hgt hle)]
  rw [herr]
  exact ⟨rfl, rfl, rfl⟩

/-- C2 witness: the spec's Scenario C, budget 1 and a single test with
nprocs = 2. -/
theorem run_tests_fatal_config_error_witness :
    isTestCodeError (run_tests [sampleTest2] none 1) = true
    ∧ planTests (run_tests [sampleTest2] none 1) = []
    ∧ semCapacity (run_tests [sampleTest2] none 1) = none :=
  run_tests_fatal_config_error [sampleTest2] none 1 sampleTest2 (by decide)
    (List.mem_singleton.mpr rfl) (by decide)

/- Lemmas about the worker step relation. -/

theorem getElem?_some_mem {α : Type} :
    ∀ (s : List α) (i : Nat) (a : α), s[i]? = some a → a ∈ s
  | [], _, _, h => by simp at h
  | b :: t, 0, a, h => by
    simp only [List.getElem?_cons_zero, Option.some.injEq] at h
    subst h
    exact List.mem_cons_self b t
  | b :: t, i + 1, a, h => by
    simp only [List.getElem?_cons_succ] at h
    exact List.mem_cons_of_mem b (getElem?_some_mem t i a h)

/-- Every step rewrites exactly one worker, preserving its unit requirement. -/
theorem schedStep_shape {cap : Nat} {s s' : List Worker}
    (hs : SchedStep cap s s') :
    ∃ i n p p', s[i]? = some (n, p) ∧ s' = s.set i (n, p') := by
  cases hs with
  | takeLock i n h hl => exact ⟨i, n, _, _, h, rfl⟩
  | acquireUnit i n k h hk hc => exact ⟨i, n, _, _, h, rfl⟩
  | finishAcquire i n h => exact ⟨i, n, _, _, h, rfl⟩
  | finishRun i n h => exact ⟨i, n, _, _, h, rfl⟩
  | releaseUnit i n k h => exact ⟨i, n, _, _, h, rfl⟩
  | finishRelease i n h => exact ⟨i, n, _, _, h, rfl⟩

/-- The semaphore never hands out more units than its capacity: one step
preserves `totalHeld ≤ cap` (the acquire step is guarded by a positive
semaphore counter, every other step keeps or lowers the held total). -/
theorem totalHeld_step {cap : Nat} {s s' : List Worker}
    (hs : SchedStep cap s s') (hle : totalHeld s ≤ cap) : totalHeld s' ≤ cap := by
  unfold totalHeld at hle ⊢
  cases hs with
  | takeLock i n h hl =>
    have hset := sumMap_set held s i (n, WPhase.pending) (n, WPhase.acquiring 0) h
    simp only [held] at hset
    omega
  | acquireUnit i n k h hk hc =>
    have hset := sumMap_set held s i (n, WPhase.acquiring k)
      (n, WPhase.acquiring (k + 1)) h
    simp only [held] at hset
    unfold totalHeld at hc
    omega
  | finishAcquire i n h =>
    have hset := sumMap_set held s i (n, WPhase.acquiring n) (n, WPhase.running) h
    simp only [held] at hset
    omega
  | finishRun i n h =>
    have hset := sumMap_set held s i (n, WPhase.running) (n, WPhase.releasing n) h
    simp only [held] at hset
    omega
  | releaseUnit i n k h =>
    have hset := sumMap_set held s i (n, WPhase.releasing (k + 1))
      (n, WPhase.releasing k) h
    simp only [held] at hset
    omega
  | finishRelease i n h =>
    have hset := sumMap_set held s i (n, WPhase.releasing 0) (n, WPhase.done) h
    simp only [held] at hset
    omega

theorem totalHeld_reach {cap : Nat} {s0 s : List Worker}
    (h : SchedReach cap s0 s) (h0 : totalHeld s0 ≤ cap) : totalHeld s ≤ cap := by
  induction h with
  | refl => exact h0
  | tail _ hbc ih => exact totalHeld_step hbc ih

theorem totalHeld_init (tests : List TCTest) : totalHeld (initState tests) = 0 := by
  induction tests with
  | nil => rfl
  | cons t ts ih =>
    simp only [initState, List.map_cons, totalHeld, List.sum_cons, held] at *
    omega

theorem runningUnits_le_held (w : Worker) : runningUnits w ≤ held w := by
  rcases w with ⟨n, p⟩
  cases p <;> simp [runningUnits, held]

theorem sumRunning_le_totalHeld (s : List Worker) : sumRunning s ≤ totalHeld s := by
  unfold sumRunning totalHeld
  exact List.sum_le_sum (fun w _ => runningUnits_le_held w)

/-- A worker never holds more units than its requirement: one step preserves
the pointwise bound. -/
theorem heldLe_step {cap : Nat} {s s' : List Worker} (hs : SchedStep cap s s')
    (hinv : ∀ w ∈ s, held w ≤ w.1) : ∀ w ∈ s', held w ≤ w.1 := by
  cases hs with
  | takeLock i n h hl =>
    intro w hw
    rcases List.mem_or_eq_of_mem_set hw with hmem | heq
    · exact hinv w hmem
    · subst heq
      simp [held]
  | acquireUnit i n k h hk hc =>
    intro w hw
    rcases List.mem_or_eq_of_mem_set hw with hmem | heq
    · exact hinv w hmem
    · subst heq
      simp only [held]
      omega
  | finishAcquire i n h =>
    intro w hw
    rcases List.mem_or_eq_of_mem_set hw with hmem | heq
    · exact hinv w hmem
    · subst heq
      simp [held]
  | finishRun i n h =>
    intro w hw
    rcases List.mem_or_eq_of_mem_set hw with hmem | heq
    · exact hinv w hmem
    · subst heq
      simp [held]
  | releaseUnit i n k h =>
    intro w hw
    rcases List.mem_or_eq_of_mem_set hw with hmem | heq
    · exact hinv w hmem
    · subst heq
      have hold := hinv (n, WPhase.releasing (k + 1)) (getElem?_some_mem s i _ h)
      simp only [held] at hold ⊢
      omega
  | finishRelease i n h =>
    intro w hw
    rcases List.mem_or_eq_of_mem_set hw with hmem | heq
    · exact hinv w hmem
    · subst heq
      simp [held]

theorem heldLe_reach {cap : Nat} {s0 s : List Worker}
    (h : SchedReach cap s0 s) (h0 : ∀ w ∈ s0, held w ≤ w.1) :
    ∀ w ∈ s, held w ≤ w.1 := by
  induction h with
  | refl => exact h0
  | tail _ hbc ih => exact heldLe_step hbc ih

theorem heldLe_init (tests : List TCTest) :
    ∀ w ∈ initState tests, held w ≤ w.1 := by
  intro w hw
  simp only [initState, List.mem_map] at hw
  obtain ⟨t, -, rfl⟩ := hw
  simp [held]

/-- Unit requirements are constant across steps. -/
theorem sumNeeds_step {cap : Nat} {s s' : List Worker}
    (hs : SchedStep cap s s') : sumNeeds s' = sumNeeds s := by
  obtain ⟨i, n, p, p', hget, rfl⟩ := schedStep_shape hs
  have hset := sumMap_set Prod.fst s i (n, p) (n, p') hget
  simp only at hset
  unfold sumNeeds
  omega

theorem sumNeeds_reach {cap : Nat} {s0 s : List Worker}
    (h : SchedReach cap s0 s) : sumNeeds s = sumNeeds s0 := by
  induction h with
  | refl => rfl
  | tail _ hbc ih => rw [sumNeeds_step hbc, ih]

/-- When the capacity covers the sum of every worker's requirement, a worker in
its acquisition loop always finds the semaphore counter positive: it never
waits. -/
theorem acquire_always_enabled {cap : Nat} {tests : List TCTest}
    {s : List Worker} (hreach : SchedReach cap (initState tests) s)
    (hcap : sumNeeds (initState tests) ≤ cap) (i n k : Nat)
    (hi : s[i]? = some (n, WPhase.acquiring k)) (hk : k < n) :
    totalHeld s < cap := by
  have hinv : ∀ w ∈ s, held w ≤ w.1 := heldLe_reach hreach (heldLe_init tests)
  have hneeds : sumNeeds s = sumNeeds (initState tests) := sumNeeds_reach hreach
  have h1 := sumMap_set held s i (n, WPhase.acquiring k) (n, WPhase.running) hi
  simp only [held] at h1
  have h2 : totalHeld (s.set i (n, WPhase.running))
      ≤ sumNeeds (s.set i (n, WPhase.running)) := by
    unfold totalHeld sumNeeds
    refine List.sum_le_sum ?_
    intro w hw
    rcases List.mem_or_eq_of_mem_set hw with hmem | heq
    · exact hinv w hmem
    · subst heq
      simp [held]
  have h3 := sumMap_set Prod.fst s i (n, WPhase.acquiring k) (n, WPhase.running) hi
  simp only at h3
  unfold totalHeld sumNeeds at *
  omega

/-- Inverting run_tests when tot_nprocs > 0 and the plan is concurrent: the
semaphore capacity is tot_nprocs itself and the worker pool runs the given
tests. -/
theorem run_tests_concurrent_pos (tests : List TCTest) (cq : Option String)
    (tot : Int) (cap : Nat) (ts : List TCTest) (htot : 0 < tot)
    (h : run_tests tests cq tot = Except.ok (RunPlan.concurrent cap ts)) :
    cap = tot.toNat ∧ ts = tests := by
  have heff : (if tot ≤ 0 ∧ cq.isSome then sumNprocs tests else tot) = tot :=
    if_neg (fun hc => absurd hc.1 (not_le.mpr htot))
  simp only [run_tests] at h
  rw [heff, if_pos htot] at h
  cases hm : maxNprocs tests with
  | none =>
    rw [hm] at h
    simp at h
  | some m =>
    simp only [hm] at h
    by_cases hlt : tot < m
    · rw [if_pos hlt] at h
      simp at h
    · rw [if_neg hlt] at h
      simp only [Except.ok.injEq, RunPlan.concurrent.injEq] at h
      exact ⟨h.1.symm, h.2.symm⟩

/-- C1: whatever concurrent plan run_tests sets up, in every reachable
interleaving of the worker step relation the sum of max(1, test.nprocs) units
held by currently-executing tests never exceeds the semaphore capacity; with
tot_nprocs > 0 that capacity is tot_nprocs itself, so the committed total never
exceeds tot_nprocs. -/
theorem run_tests_budget_invariant (tests ts : List TCTest) (cq : Option String)
    (tot : Int) (cap : Nat) (s : List Worker)
    (hrun : run_tests tests cq tot = Except.ok (RunPlan.concurrent cap ts))
    (hreach : SchedReach cap (initState ts) s) :
    sumRunning s ≤ cap ∧ (0 < tot → (sumRunning s : Int) ≤ tot) := by
  have hheld : totalHeld s ≤ cap :=
    totalHeld_reach hreach (by rw [totalHeld_init]; exact Nat.zero_le cap)
  have hmain : sumRunning s ≤ cap := le_trans (sumRunning_le_totalHeld s) hheld
  refine ⟨hmain, fun htot => ?_⟩
  obtain ⟨hcap, -⟩ := run_tests_concurrent_pos tests cq tot cap ts htot hrun
  have hc : (cap : Int) = tot := by
    rw [hcap]
    exact Int.toNat_of_nonneg (le_of_lt htot)
  omega

/-- C1 witness: the invariant at a concrete run (one test, budget 2) in the
initial interleaving state. -/
theorem run_tests_budget_invariant_witness :
    sumRunning (initState [sampleTest1]) ≤ 2
    ∧ (0 < (2 : Int) → (sumRunning (initState [sampleTest1]) : Int) ≤ 2) :=
  run_tests_budget_invariant [sampleTest1] [sampleTest1] none 2 2
    (initState [sampleTest1]) (by decide) Relation.ReflTransGen.refl

/-- The sum of the workers' requirements equals the sum of the tests' nprocs
whenever every test asks for at least one processor. -/
theorem sumNeeds_init_of_pos :
    ∀ (tests : List TCTest), (∀ t ∈ tests, 1 ≤ t.nprocs) →
      sumNeeds (initState tests) = (sumNprocs tests).toNat
  | [], _ => rfl
  | t :: ts, h => by
    have h1 : 1 ≤ t.nprocs := h t (List.mem_cons_self t ts)
    have hr := sumNeeds_init_of_pos ts (fun u hu => h u (List.mem_cons_of_mem t hu))
    have hnn : 0 ≤ sumNprocs ts :=
      sumNprocs_nonneg ts
        (fun u hu => le_trans zero_le_one (h u (List.mem_cons_of_mem t hu)))
    have hmax : nprocsUsed t.nprocs = t.nprocs.toNat := by
      unfold nprocsUsed
      rw [max_eq_right h1]
    simp only [initState, sumNeeds, sumNprocs, List.map_cons, List.sum_cons] at *
    omega

/-- C8 (amended): with tot_nprocs ≤ 0, a cluster queue set, a non-empty test
list and every test requiring at least one processor, run_tests creates the
budget gate with capacity equal to the sum of the tests' nprocs; that capacity
equals the sum of all the workers' max(1, nprocs) requirements, and in every
reachable interleaving a worker inside its acquisition loop finds the semaphore
counter positive — no worker ever waits, so all tests are admitted to the
external queueing system at once. -/
theorem run_tests_cluster_all_admitted (tests : List TCTest) (q : String)
    (tot : Int) (htot : tot ≤ 0) (hne : tests ≠ [])
    (hpos : ∀ t ∈ tests, 1 ≤ t.nprocs) :
    run_tests tests (some q) tot
      = Except.ok (RunPlan.concurrent (sumNprocs tests).toNat tests)
    ∧ sumNeeds (initState tests) = (sumNprocs tests).toNat
    ∧ ∀ s : List Worker, SchedReach ((sumNprocs tests).toNat) (initState tests) s →
        ∀ i n k : Nat, s[i]? = some (n, WPhase.acquiring k) → k < n →
          totalHeld s < (sumNprocs tests).toNat := by
  have h0 : ∀ t ∈ tests, 0 ≤ t.nprocs :=
    fun t ht => le_trans zero_le_one (hpos t ht)
  have hpos' : (0 : Int) < sumNprocs tests := by
    cases tests with
    | nil => exact absurd rfl hne
    | cons t ts =>
      have h1 := hpos t (List.mem_cons_self t ts)
      have hnn : 0 ≤ sumNprocs ts :=
        sumNprocs_nonneg ts
          (fun u hu => le_trans zero_le_one (hpos u (List.mem_cons_of_mem t hu)))
      simp only [sumNprocs, List.map_cons, List.sum_cons] at *
      omega
  have hrun : run_tests tests (some q) tot
      = Except.ok (RunPlan.concurrent (sumNprocs tests).toNat tests) := by
    have heff : (if tot ≤ 0 ∧ (some q : Option String).isSome
        then sumNprocs tests else tot) = sumNprocs tests :=
      if_pos ⟨htot, rfl⟩
    cases tests with
    | nil => exact absurd rfl hne
    | cons t ts =>
      obtain ⟨m, hm, -⟩ := maxNprocs_spec (t :: ts) t (List.mem_cons_self t ts)
      obtain ⟨tm, htm, hme⟩ := maxNprocs_is_mem (t :: ts) m hm
      have hmle : m ≤ sumNprocs (t :: ts) := by
        have := nprocs_le_sum (t :: ts) h0 tm htm
        omega
      simp only [run_tests]
      rw [heff, if_pos hpos']
      simp only [hm]
      rw [if_neg (not_lt.mpr hmle)]
  refine ⟨hrun, sumNeeds_init_of_pos tests hpos, ?_⟩
  intro s hreach i n k hi hk
  exact acquire_always_enabled hreach
    (le_of_eq (sumNeeds_init_of_pos tests hpos)) i n k hi hk

/-- C8 witness: the amended statement at two tests with nprocs 1 and 2 on a
cluster queue, with the no-waiting conclusion applied in the state reached
after the first worker takes the lock. -/
theorem run_tests_cluster_all_admitted_witness :
    run_tests [sampleTest1, sampleTest2] (some "pbs") 0
      = Except.ok (RunPlan.concurrent
          (sumNprocs [sampleTest1, sampleTest2]).toNat [sampleTest1, sampleTest2])
    ∧ sumNeeds (initState [sampleTest1, sampleTest2])
        = (sumNprocs [sampleTest1, sampleTest2]).toNat
    ∧ totalHeld [(1, WPhase.acquiring 0), (2, WPhase.pending)]
        < (sumNprocs [sampleTest1, sampleTest2]).toNat := by
  obtain ⟨h1, h2, h3⟩ := run_tests_cluster_all_admitted [sampleTest1, sampleTest2]
    "pbs" 0 (by decide) (by decide) (by decide)
  refine ⟨h1, h2, ?_⟩
  have hinit : initState [sampleTest1, sampleTest2]
      = [(1, WPhase.pending), (2, WPhase.pending)] := by decide
  refine h3 [(1, WPhase.acquiring 0), (2, WPhase.pending)] ?_ 0 1 0
    (by decide) (by decide)
  unfold SchedReach
  rw [hinit]
  exact Relation.ReflTransGen.single
    (SchedStep.takeLock [(1, WPhase.pending), (2, WPhase.pending)] 0 1
      (by decide) (by decide))

/-- C8 counterexample: with tot_nprocs ≤ 0 and a cluster queue, two tests with
nprocs 0 and 2 give a budget gate of capacity 0 + 2 = 2, but their workers need
max(1,0) + max(1,2) = 3 units, so they cannot all hold their units at once; and
a reachable interleaving puts the serial test's worker inside its acquisition
loop (it needs one more unit) with the semaphore counter at zero — the acquire
step is disabled and the worker must wait.  This refutes the claim that every
worker can acquire its units without waiting and all tests are admitted at
once. -/
theorem run_tests_cluster_counterexample :
    run_tests [sampleTest0, sampleTest2] (some "pbs") 0
      = Except.ok (RunPlan.concurrent 2 [sampleTest0, sampleTest2])
    ∧ sumNeeds (initState [sampleTest0, sampleTest2]) = 3
    ∧ ¬ sumNeeds (initState [sampleTest0, sampleTest2]) ≤ 2
    ∧ SchedReach 2 (initState [sampleTest0, sampleTest2])
        [(1, WPhase.acquiring 0), (2, WPhase.running)]
    ∧ [(1, WPhase.acquiring 0), (2, WPhase.running)][0]?
        = some (1, WPhase.acquiring 0)
    ∧ ¬ totalHeld [(1, WPhase.acquiring 0), (2, WPhase.running)] < 2 := by
  have hinit : initState [sampleTest0, sampleTest2]
      = [(1, WPhase.pending), (2, WPhase.pending)] := by decide
  refine ⟨by decide, by decide, by decide, ?_, by decide, by decide⟩
  unfold SchedReach
  rw [hinit]
  have h1 : SchedStep 2 [(1, WPhase.pending), (2, WPhase.pending)]
      [(1, WPhase.pending), (2, WPhase.acquiring 0)] :=
    SchedStep.takeLock [(1, WPhase.pending), (2, WPhase.pending)] 1 2
      (by decide) (by decide)
  have h2 : SchedStep 2 [(1, WPhase.pending), (2, WPhase.acquiring 0)]
      [(1, WPhase.pending), (2, WPhase.acquiring 1)] :=
    SchedStep.acquireUnit [(1, WPhase.pending), (2, WPhase.acquiring 0)] 1 2 0
      (by decide) (by decide) (by decide)
  have h3 : SchedStep 2 [(1, WPhase.pending), (2, WPhase.acquiring 1)]
      [(1, WPhase.pending), (2, WPhase.acquiring 2)] :=
    SchedStep.acquireUnit [(1, WPhase.pending), (2, WPhase.acquiring 1)] 1 2 1
      (by decide) (by decide) (by decide)
  have h4 : SchedStep 2 [(1, WPhase.pending), (2, WPhase.acquiring 2)]
      [(1, WPhase.pending), (2, WPhase.running)] :=
    SchedStep.finishAcquire [(1, WPhase.pending), (2, WPhase.acquiring 2)] 1 2
      (by decide)
  have h5 : SchedStep 2 [(1, WPhase.pending), (2, WPhase.running)]
      [(1, WPhase.acquiring 0), (2, WPhase.running)] :=
    SchedStep.takeLock [(1, WPhase.pending), (2, WPhase.running)] 0 1
      (by decide) (by decide)
  exact Relation.ReflTransGen.head h1 (Relation.ReflTransGen.head h2
    (Relation.ReflTransGen.head h3 (Relation.ReflTransGen.head h4
      (Relation.ReflTransGen.single h5))))

theorem countP_replicate (p : WEvent → Bool) (n : Nat) (a : WEvent) :
    (List.replicate n a).countP p = if p a then n else 0 := by
  induction n with
  | zero => simp
  | succ m ih =>
    rw [List.replicate_succ, List.countP_cons, ih]
    by_cases hp : p a
    · simp [hp]
    · simp [hp]

/-- C3: on every exit path of test.run_test — success, recorded failure or
abnormal termination of the external execution — the worker's trace contains
exactly as many semaphore releases as acquisitions, namely max(1, test.nprocs)
of each. -/
theorem run_test_worker_release_eq_acquire (test : TCTest)
    (outcome : RunOutcome) :
    (run_test_worker test outcome).countP WEvent.isSemRelease
      = (run_test_worker test outcome).countP WEvent.isSemAcquire
    ∧ (run_test_worker test outcome).countP WEvent.isSemAcquire
      = nprocsUsed test.nprocs := by
  unfold run_test_worker
  simp [List.countP_cons, List.countP_append, countP_replicate,
    WEvent.isSemAcquire, WEvent.isSemRelease]

/- compare_tests and diff_tests. -/

/-- Closed form of the compare_tests inner loop: the final status folds
verify_job over exactly the sub-runs whose test file exists, the skip count is
the number of sub-runs whose file is missing, and verify_job is invoked exactly
on the existing ones. -/
theorem compare_sub_spec (fs : String → Bool)
    (verify : String → String → Bool → TCStatus → TCStatus) (verbose : Bool)
    (file : String → String → String) :
    ∀ (l : List (String × String)) (st : TCStatus),
      compare_sub fs verify verbose file l st
        = ((l.filter (fun ia => fs (file ia.1 ia.2))).foldl
            (fun s ia => verify ia.1 ia.2 verbose s) st,
          (l.filter (fun ia => !fs (file ia.1 ia.2))).length,
          l.filter (fun ia => fs (file ia.1 ia.2)))
  | [], st => rfl
  | (inp, args) :: rest, st => by
    have ih1 := compare_sub_spec fs verify verbose file rest
      (verify inp args verbose st)
    have ih2 := compare_sub_spec fs verify verbose file rest st
    cases hf : fs (file inp args) with
    | true => simp [compare_sub, hf, ih1, List.filter_cons]
    | false => simp [compare_sub, hf, ih2, List.filter_cons]

/-- C5: for every test list and every behaviour of the external collaborators,
compare_tests returns a skip count equal to the number of sub-runs whose test
output file does not exist, invokes verify_job exactly on the sub-runs whose
test file exists, and each test's final status triple is the fold of verify_job
over only those existing sub-runs — a skipped sub-run leaves the triple
untouched. -/
theorem compare_tests_skips_missing (tcfname : String → String → String → String)
    (fs : String → Bool)
    (verify : String → String → Bool → TCStatus → TCStatus)
    (tests : List TCTest) (verbose : Bool) :
    (compare_tests tcfname fs verify tests verbose).nskipped
      = (tests.map (fun t => (t.inputs_args.filter
          (fun ia => !fs (testFileOf tcfname t ia.1 ia.2))).length)).sum
    ∧ (compare_tests tcfname fs verify tests verbose).verified
      = (tests.map (fun t => t.inputs_args.filter
          (fun ia => fs (testFileOf tcfname t ia.1 ia.2)))).flatten
    ∧ (compare_tests tcfname fs verify tests verbose).tests
      = tests.map (fun t => setStatus t
          ((t.inputs_args.filter
            (fun ia => fs (testFileOf tcfname t ia.1 ia.2))).foldl
            (fun s ia => verify ia.1 ia.2 verbose s) (get_status t))) := by
  induction tests with
  | nil => exact ⟨rfl, rfl, rfl⟩
  | cons t rest ih =>
    obtain ⟨ih1, ih2, ih3⟩ := ih
    refine ⟨?_, ?_, ?_⟩
    · simp [compare_tests, compare_sub_spec, ih1]
    · simp [compare_tests, compare_sub_spec, ih2]
    · simp [compare_tests, compare_sub_spec, ih3]

theorem map_eq_of_forall {α β : Type} :
    ∀ (l : List α) (f g : α → β), (∀ a ∈ l, f a = g a) → l.map f = l.map g
  | [], _, _, _ => rfl
  | a :: t, f, g, h => by
    have h1 := h a (List.mem_cons_self a t)
    have h2 := map_eq_of_forall t f g (fun x hx => h x (List.mem_cons_of_mem a hx))
    simp only [List.map_cons, h1, h2]

theorem flatten_map_nil {α β : Type} :
    ∀ (l : List α), (l.map (fun _ => ([] : List β))).flatten = []
  | [] => rfl
  | a :: t => by
    simp only [List.map_cons, List.flatten_cons, List.nil_append]
    exact flatten_map_nil t

theorem filter_flatten {α : Type} (p : α → Bool) :
    ∀ (L : List (List α)),
      L.flatten.filter p = (L.map (fun l => l.filter p)).flatten
  | [] => rfl
  | l :: ls => by
    simp only [List.flatten_cons, List.filter_append, List.map_cons]
    rw [filter_flatten p ls]

/-- The diff commands diff_tests executes for one test: exactly the sub-runs
for which both the test output file and the benchmark file exist, in order. -/
theorem diff_one_diffed (bfn tfn : String → String → String → String)
    (fs : String → String → Bool) (dp : String) (verbose : Bool) (t : TCTest) :
    ∀ l : List (String × String),
      (diff_one bfn tfn fs dp verbose t l).1
        = (l.filter (fun ia =>
            fs t.path (tfn t.test_program.test_id ia.1 ia.2)
            && fs t.path (bfn t.test_program.benchmark ia.1 ia.2))).map
            (fun ia => dp ++ " " ++ bfn t.test_program.benchmark ia.1 ia.2
              ++ " " ++ tfn t.test_program.test_id ia.1 ia.2)
  | [] => rfl
  | (inp, args) :: rest => by
    have ih := diff_one_diffed bfn tfn fs dp verbose t rest
    cases hA : fs t.path (tfn t.test_program.test_id inp args) <;>
      cases hB : fs t.path (bfn t.test_program.benchmark inp args) <;>
        simp [diff_one, hA, hB, ih, List.filter_cons]

/-- diff_tests prints nothing at all when verbose is off. -/
theorem diff_one_printed_quiet (bfn tfn : String → String → String → String)
    (fs : String → String → Bool) (dp : String) (t : TCTest) :
    ∀ l : List (String × String), (diff_one bfn tfn fs dp false t l).2 = []
  | [] => rfl
  | (inp, args) :: rest => by
    have ih := diff_one_printed_quiet bfn tfn fs dp t rest
    simp only [diff_one]
    split <;> simp [ih]

/-- In verbose mode the skip messages printed are exactly one per sub-run
missing either file. -/
theorem diff_one_printed_skip (bfn tfn : String → String → String → String)
    (fs : String → String → Bool) (dp : String) (t : TCTest) :
    ∀ l : List (String × String),
      (diff_one bfn tfn fs dp true t l).2.filter DiffEvent.isSkip
        = (l.filter (fun ia =>
            !(fs t.path (tfn t.test_program.test_id ia.1 ia.2)
              && fs t.path (bfn t.test_program.benchmark ia.1 ia.2)))).map
            (fun ia => DiffEvent.skipping (tfn t.test_program.test_id ia.1 ia.2))
  | [] => rfl
  | (inp, args) :: rest => by
    have ih := diff_one_printed_skip bfn tfn fs dp t rest
    cases hA : fs t.path (tfn t.test_program.test_id inp args) <;>
      cases hB : fs t.path (bfn t.test_program.benchmark inp args) <;>
        simp [diff_one, hA, hB, ih, List.filter_cons, List.filter_append,
          DiffEvent.isSkip]

/-- C9: diff_tests never mutates any test (the returned tests are the input
tests), executes the external diff exactly on the sub-runs where both the test
output file and the benchmark file exist, prints nothing when verbose is off,
and in verbose mode reports exactly one skip per sub-run missing either file. -/
theorem diff_tests_readonly (bfn tfn : String → String → String → String)
    (fs : String → String → Bool) (dp : String) (tests : List TCTest)
    (verbose : Bool) :
    (diff_tests bfn tfn fs dp tests verbose).tests = tests
    ∧ (diff_tests bfn tfn fs dp tests verbose).diffed
        = (tests.map (fun t => (t.inputs_args.filter (fun ia =>
            fs t.path (tfn t.test_program.test_id ia.1 ia.2)
            && fs t.path (bfn t.test_program.benchmark ia.1 ia.2))).map
            (fun ia => dp ++ " " ++ bfn t.test_program.benchmark ia.1 ia.2
              ++ " " ++ tfn t.test_program.test_id ia.1 ia.2))).flatten
    ∧ (diff_tests bfn tfn fs dp tests false).printed = []
    ∧ (diff_tests bfn tfn fs dp tests true).printed.filter DiffEvent.isSkip
        = (tests.map (fun t => (t.inputs_args.filter (fun ia =>
            !(fs t.path (tfn t.test_program.test_id ia.1 ia.2)
              && fs t.path (bfn t.test_program.benchmark ia.1 ia.2)))).map
            (fun ia => DiffEvent.skipping
              (tfn t.test_program.test_id ia.1 ia.2)))).flatten := by
  refine ⟨rfl, ?_, ?_, ?_⟩
  · show (tests.map
        (fun t => (diff_one bfn tfn fs dp verbose t t.inputs_args).1)).flatten = _
    exact congrArg List.flatten (map_eq_of_forall tests _ _
      (fun t _ => diff_one_diffed bfn tfn fs dp verbose t t.inputs_args))
  · show (tests.map
        (fun t => (diff_one bfn tfn fs dp false t t.inputs_args).2)).flatten = []
    rw [map_eq_of_forall tests _ (fun _ => ([] : List DiffEvent))
      (fun t _ => diff_one_printed_quiet bfn tfn fs dp t t.inputs_args)]
    exact flatten_map_nil tests
  · show ((tests.map
        (fun t => (diff_one bfn tfn fs dp true t t.inputs_args).2)).flatten).filter
          DiffEvent.isSkip = _
    rw [filter_flatten, List.map_map]
    exact congrArg List.flatten (map_eq_of_forall tests _ _
      (fun t _ => diff_one_printed_skip bfn tfn fs dp t t.inputs_args))

/- make_benchmarks. -/

/-- C6: when not all ran sub-runs passed (npassed ≠ nran) and the first valid
confirmation answer is not 'y', make_benchmarks returns immediately: the
confirmation was prompted, but create_new_benchmarks runs on no test and the
userconfig file is neither read nor written. -/
theorem make_benchmarks_declined (tps : List (String × TCProgram))
    (tests : List TCTest) (uc : String) (stream : List String)
    (a : String) (rest : List String)
    (hne : npassedOf tests ≠ nranOf tests)
    (hask : askConfirm stream = some (a, rest)) (hna : a ≠ "y") :
    make_benchmarks tps tests uc stream
      = { confirmPrompted := true, created := [], userconfigRead := false,
          userconfigWritten := false, crashed := false, aborted := true } := by
  unfold make_benchmarks
  rw [if_pos hne]
  simp only [hask]
  rw [if_pos hna]

/-- C6 witness: a run with one failed sub-run, an invalid answer followed by
'n'. -/
theorem make_benchmarks_declined_witness :
    make_benchmarks [("prog", sampleProgram)] [sampleFailedTest] "userconfig"
      ["maybe", "n"]
      = { confirmPrompted := true, created := [], userconfigRead := false,
          userconfigWritten := false, crashed := false, aborted := true } :=
  make_benchmarks_declined [("prog", sampleProgram)] [sampleFailedTest]
    "userconfig" ["maybe", "n"] "n" [] (by decide) (by decide) (by decide)

theorem make_benchmarks_rest_prompted (tps : List (String × TCProgram))
    (tests : List TCTest) (uc : String) (stream : List String) (b : Bool) :
    (make_benchmarks_rest tps tests uc stream b).confirmPrompted = b := by
  unfold make_benchmarks_rest
  cases hv : collectVcs tps stream with
  | none => rfl
  | some v =>
    rcases v with ⟨vcs, s⟩
    rfl

/-- The confirmation prompt of make_benchmarks is shown exactly when
npassed ≠ nran, whatever the operator input and the vcs handles do. -/
theorem make_benchmarks_prompted (tps : List (String × TCProgram))
    (tests : List TCTest) (uc : String) (stream : List String) :
    (make_benchmarks tps tests uc stream).confirmPrompted
      = if npassedOf tests ≠ nranOf tests then true else false := by
  by_cases hne : npassedOf tests ≠ nranOf tests
  · rw [if_pos hne]
    unfold make_benchmarks
    rw [if_pos hne]
    cases hask : askConfirm stream with
    | none => rfl
    | some pr =>
      rcases pr with ⟨a, rest⟩
      dsimp only
      by_cases hy : a ≠ "y"
      · rw [if_pos hy]
      · rw [if_neg hy]
        exact make_benchmarks_rest_prompted tps tests uc rest true
  · rw [if_neg hne]
    unfold make_benchmarks
    rw [if_neg hne]
    exact make_benchmarks_rest_prompted tps tests uc stream false

/-- When every program has a version-control handle, the vcs collection loop
consumes no operator input and succeeds. -/
theorem collectVcs_total :
    ∀ (tps : List (String × TCProgram)) (stream : List String),
      (∀ p ∈ tps, p.2.code_id ≠ none) →
      ∃ v, collectVcs tps stream = some (v, stream)
  | [], stream, _ => ⟨[], rfl⟩
  | (key, prog) :: rest, stream, h => by
    have hp : prog.code_id ≠ none := h (key, prog) (List.mem_cons_self _ _)
    obtain ⟨cid, hcid⟩ : ∃ c, prog.code_id = some c := by
      cases hc : prog.code_id with
      | none => exact absurd hc hp
      | some c => exact ⟨c, rfl⟩
    obtain ⟨v, hv⟩ := collectVcs_total rest stream
      (fun p hpmem => h p (List.mem_cons_of_mem _ hpmem))
    refine ⟨(key, cid) :: v, ?_⟩
    simp only [collectVcs, hcid, hv]

/-- C10: make_benchmarks requests interactive confirmation iff npassed ≠ nran
over the tests' status triples; in particular with npassed = nran = 0 (nothing
ran at all) it proceeds without any confirmation prompt: benchmarks are created
for every test and the userconfig file is read and rewritten. -/
theorem make_benchmarks_prompt_iff (tps : List (String × TCProgram))
    (tests : List TCTest) (uc : String) (stream : List String) :
    ((make_benchmarks tps tests uc stream).confirmPrompted = true
      ↔ npassedOf tests ≠ nranOf tests)
    ∧ (npassedOf tests = 0 → nranOf tests = 0 → uc ≠ "" →
        (∀ p ∈ tps, p.2.code_id ≠ none) →
        ∃ label, make_benchmarks tps tests uc stream
          = { confirmPrompted := false,
              created := tests.map (fun t => (t, label)),
              userconfigRead := true, userconfigWritten := true,
              crashed := false, aborted := false }) := by
  constructor
  · rw [make_benchmarks_prompted]
    by_cases hne : npassedOf tests ≠ nranOf tests
    · simp [hne]
    · simp [hne]
  · intro hp hr huc hvcs
    have hne' : ¬ npassedOf tests ≠ nranOf tests := by
      rw [hp, hr]
      exact not_ne_iff.mpr rfl
    obtain ⟨v, hcv⟩ := collectVcs_total tps stream hvcs
    refine ⟨mkLabel v, ?_⟩
    unfold make_benchmarks
    rw [if_neg hne']
    unfold make_benchmarks_rest
    simp only [hcv]
    simp [huc]

/-- C10 witness: one clean test (nothing ran), one program under version
control, a non-empty userconfig path and no operator input at all. -/
theorem make_benchmarks_prompt_iff_witness :
    ∃ label, make_benchmarks [("prog", sampleProgram)] [sampleTest1]
        "userconfig" []
      = { confirmPrompted := false,
          created := [sampleTest1].map (fun t => (t, label)),
          userconfigRead := true, userconfigWritten := true,
          crashed := false, aborted := false } :=
  (make_benchmarks_prompt_iff [("prog", sampleProgram)] [sampleTest1]
    "userconfig" []).2 (by decide) (by decide) (by decide) (by decide)
